import Mathlib

/-!
Verification of the tiered bronze → silver → gold batch pipeline
(dataops-incremental-pipeline-dvc), shallowly embedded in Lean 4.

The embedding covers:
* `validate_df` from `src/validate_silver.py` (the row-level quality gate),
* the accepted/rejected partition performed by `validate_silver.main`,
* `split_into_batches` from `src/simulate_incremental_ingest.py`,
* the train/test split of `src/build_gold.py`,
* the per-batch manifest recording of `src/simulate_incremental_ingest.py`
  together with the file moves of `src/ingest_bronze.py`,
* the min-max scaling of `src/transform_silver.py`.

Tables are lists of rows; the pandas integer index of a row is its position
in the list (`List.enum`). Nullable cells are `Option`; a cell that pandas
would parse is modelled by carrying the parse result alongside the raw value.
Sorting ascending (`sort_values`) is modelled by `List.insertionSort`, which
the kernel can evaluate; tie order among equal keys never influences the
properties proved here.
-/

namespace DataOps

/-- The five columns of a bronze batch. In this pipeline every table carries
exactly these columns (they are written by `split_into_batches.py` /
`make_synthetic`), so the `raise ValueError` branch of `validate_df` for a
missing required column is unreachable and the `required_cols` argument only
selects which non-null checks run. -/
inductive Col
  | id | feature_num | feature_cat | target | timestamp
deriving DecidableEq, Repr

/-- A raw timestamp cell: `raw` identifies the raw string (string equality is
what `df["timestamp"].duplicated` compares), `parsed` is the result of
`pd.to_datetime(..., errors="coerce")` in minutes (`none` = `NaT`). -/
structure TsCell where
  raw : Nat
  parsed : Option Int
deriving DecidableEq, Repr

/-- One bronze row. Outer `Option` = cell null-ness (`notnull`); for
`feature_num` the inner `Option` is the result of
`pd.to_numeric(..., errors="coerce")` (`none` = not numeric). -/
structure Row where
  id : Option Int
  feature_num : Option (Option ℚ)
  feature_cat : Option Nat
  target : Option Int
  timestamp : Option TsCell
deriving DecidableEq, Repr

/-- The default `required_columns` of `validate_silver.main`. -/
def default_required : List Col :=
  [Col.id, Col.feature_num, Col.feature_cat, Col.target, Col.timestamp]

/-- `df[c].notnull()` for one row and one column. -/
def notnullAt (r : Row) : Col → Bool
  | Col.id => r.id.isSome
  | Col.feature_num => r.feature_num.isSome
  | Col.feature_cat => r.feature_cat.isSome
  | Col.target => r.target.isSome
  | Col.timestamp => r.timestamp.isSome

/-- `df["_feature_num"] = pd.to_numeric(df["feature_num"], errors="coerce")`:
a null cell coerces to NaN, a non-numeric string to NaN. -/
def parsedNum (r : Row) : Option ℚ := r.feature_num.bind id

/-- `pd.to_datetime(df["timestamp"], errors="coerce")` for one row
(`none` = `NaT`). -/
def parsedTs (r : Row) : Option Int := r.timestamp.bind TsCell.parsed

/-- `(df["_feature_num"] < min_val) | (df["_feature_num"] > max_val)` with the
fixed bounds `-100.0, 200.0`; a NaN compares false on both sides. -/
def outOfRange (r : Row) : Bool :=
  match parsedNum r with
  | some q => decide (q < -100) || decide (q > 200)
  | none => false

/-- The per-row (index-independent) core checks of `validate_df`:
required columns non-null, `feature_num` numeric, `target ∈ {0,1}`,
`timestamp` parseable, `feature_num` in range. -/
def rowLocalOk (req : List Col) (r : Row) : Bool :=
  req.all (notnullAt r) &&
  (parsedNum r).isSome &&
  decide (r.target = some 0 ∨ r.target = some 1) &&
  (parsedTs r).isSome &&
  !(outOfRange r)

/-- The parsed timestamps paired with their original index, `NaT` rows
dropped. `ts.sort_values()` puts `NaT` last and every `diff` involving a
`NaT` is `NaT` and removed by `dropna`, so only these rows contribute. -/
def tsWithIdx (rows : List Row) : List (Nat × Int) :=
  rows.enum.filterMap (fun p => (parsedTs p.2).map (fun t => (p.1, t)))

/-- `ts.sort_values()`: the parsed timestamps in ascending order, keeping the
original index labels. (Tie order among equal timestamps does not affect the
rejected set: tied diffs are 0 and never exceed the positive threshold.) -/
def sortedTs (rows : List Row) : List (Nat × Int) :=
  (tsWithIdx rows).insertionSort (fun a b => a.2 ≤ b.2)

/-- `diffs = ts_sorted.diff().dropna()`: each consecutive gap, labelled by the
original index of the later row. -/
def diffsOf (rows : List Row) : List (Nat × Int) :=
  ((sortedTs rows).zip (sortedTs rows).tail).map (fun pq => (pq.2.1, pq.2.2 - pq.1.2))

/-- `positive = diffs[diffs > pd.Timedelta(0)]`. -/
def posDiffs (rows : List Row) : List Int :=
  ((diffsOf rows).map Prod.snd).filter (fun d => decide (0 < d))

/-- `positive.min()` when positives exist — the "expected cadence". -/
def minPosGap (rows : List Row) : Option Int :=
  match posDiffs rows with
  | [] => none
  | d :: ds => some (ds.foldl min d)

/-- Twice `Series.median()` on integer gaps: pandas averages the two middle
values for an even count, so the median itself may be half-integral; its
double is always an integer, which we carry exactly. Only reached with a
nonempty argument. -/
def twiceMedian (xs : List Int) : Int :=
  let s := xs.insertionSort (fun a b => a ≤ b)
  let n := s.length
  if n % 2 = 1 then 2 * s[n / 2]?.getD 0
  else s[n / 2 - 1]?.getD 0 + s[n / 2]?.getD 0

/-- Twice `expected` (the smallest positive diff, else `diffs.median()`).
Kept doubled so that the exact pandas `Timedelta` arithmetic stays integral. -/
def twiceExpectedCadence (rows : List Row) : Int :=
  match minPosGap rows with
  | some m => 2 * m
  | none => twiceMedian ((diffsOf rows).map Prod.snd)

/-- `large_gaps = diffs[diffs > 3 * expected]`, guarded by
`if not diffs.empty`: the original indices set to `False` by the continuity
check. The exact comparison `d > 3 * expected` is taken with both sides
doubled: `2 * d > 3 * (2 * expected)`. -/
def gapIndices (rows : List Row) : List Nat :=
  if (diffsOf rows).isEmpty then []
  else ((diffsOf rows).filter
    (fun d => decide (3 * twiceExpectedCadence rows < 2 * d.2))).map Prod.fst

/-- The value the core checks of `validate_df` leave at index `i`, row `r`:
the per-row checks, the two `duplicated(keep=False)` checks (pandas counts
equal values, nulls included, so a value occurring twice or more marks every
bearer), and the continuity check. -/
def coreMaskEntry (req : List Col) (rows : List Row) (i : Nat) (r : Row) : Bool :=
  rowLocalOk req r &&
  !(decide (2 ≤ (rows.map Row.id).count r.id)) &&
  !(decide (2 ≤ (rows.map (fun s => s.timestamp.map TsCell.raw)).count
      (r.timestamp.map TsCell.raw))) &&
  !((gapIndices rows).contains i)

/-- The value of the final mask at index `i`, row `r`: the core checks plus
the optional pandera layer, modelled by the index list `extra` of rows the
layer marks invalid (`results.loc[failed_idx] = False`); `extra = []` models
the layer absent or passing. -/
def maskEntry (req : List Col) (rows : List Row) (extra : List Nat)
    (i : Nat) (r : Row) : Bool :=
  coreMaskEntry req rows i r && !(extra.contains i)

/-- `validate_df(df, required_cols)`: the boolean mask, one entry per row. -/
def validate_df (req : List Col) (rows : List Row) (extra : List Nat) : List Bool :=
  rows.enum.map (fun p => maskEntry req rows extra p.1 p.2)

/-- `valid = df[mask]; invalid = df[~mask]` in `validate_silver.main`:
rows keep their original index labels. -/
def partitionByMask (rows : List Row) (mask : List Bool) :
    List (Nat × Row) × List (Nat × Row) :=
  (((rows.enum.zip mask).filter (fun p => p.2)).map Prod.fst,
   ((rows.enum.zip mask).filter (fun p => !p.2)).map Prod.fst)

/-- A fully well-formed row: distinct ids and raw timestamps are chosen per
use; `feature_num = 10` lies in range, `target = 1`. -/
def mkRow (i : Int) (rawTs : Nat) (t : Int) : Row :=
  { id := some i, feature_num := some (some 10), feature_cat := some 0,
    target := some 1, timestamp := some ⟨rawTs, some t⟩ }

/-- The spec's gap-detection example: timestamps `[T, T+1min, T+70min]`
with `T = 0`. -/
def c1Rows : List Row := [mkRow 1 0 0, mkRow 2 1 1, mkRow 3 2 70]

/-- Two otherwise valid rows sharing `id = 1`. -/
def c2Rows : List Row := [mkRow 1 0 0, mkRow 1 1 5]

/-- Batch sizes of `split_into_batches`: `base = total // n`,
`rem = total % n`, `size = base + (1 if i < rem else 0)`. -/
def chunkSizes (total n : Nat) : List Nat :=
  (List.range n).map (fun i => total / n + if i < total % n then 1 else 0)

/-- Successive `df.iloc[start:end]` slices: each chunk takes its size off the
front, exactly as the running `start`/`end` cursor of the source does. -/
def takeChunks : List α → List Nat → List (List α)
  | _, [] => []
  | d, s :: ss => d.take s :: takeChunks (d.drop s) ss

/-- `split_into_batches(df, n)` from `simulate_incremental_ingest.py`:
sort (by `timestamp` when present, else `id` — abstracted as the order `r`),
return `n` empty copies when the table is empty, else slice into `n` chunks
of size `base + (1 if i < rem else 0)`. -/
def split_into_batches (df : List α) (r : α → α → Prop) [DecidableRel r]
    (n : Nat) : List (List α) :=
  let d := df.insertionSort r
  if df.length = 0 then (List.range n).map (fun _ => ([] : List α))
  else takeChunks d (chunkSizes d.length n)

/-- `test = gold.sample(frac=test_size, random_state=seed)`: pandas draws
`round(frac * len(gold))` distinct row positions (`idxs`, in the sampled
order, a deterministic function of the seed) and returns those rows. -/
def sampleAt (gold : List α) (idxs : List Nat) : List α :=
  idxs.filterMap (fun i => gold[i]?)

/-- `train = gold.drop(test.index)`: the rows whose position is not sampled,
in original order. -/
def dropAt (gold : List α) (idxs : List Nat) : List α :=
  ((List.range gold.length).filter (fun i => !(idxs.contains i))).filterMap
    (fun i => gold[i]?)

/-- Python `round` (round half to even), as used by pandas to turn
`frac` into a sample size. -/
def pyRound (q : ℚ) : Int :=
  let f := ⌊q⌋
  let r := q - (f : ℚ)
  if r < 1/2 then f
  else if 1/2 < r then f + 1
  else if f % 2 = 0 then f else f + 1

/-- `round(frac * len(gold))`, clamped to `Nat`. -/
def sampleSize (total : Nat) (frac : ℚ) : Nat := (pyRound (frac * total)).toNat

/-- A CSV file as the simulator can observe it: `rows` is the row count
`pd.read_csv` reports (`none` when reading/parsing fails), `lines` the raw
line count (header included). -/
structure FileData where
  rows : Option Nat
  lines : Nat
deriving DecidableEq, Repr

/-- The files of one batch as seen by the simulator's per-batch loop:
its staged copy, its copy in the arrival inbox `data/incoming/`, and its raw
copy `data/bronze/raw_<name>` made by the ingest stage. -/
structure SimFs where
  staged : Option FileData
  incoming : Option FileData
  raw : Option FileData
deriving DecidableEq, Repr

/-- `ingest_bronze.main` for the one incoming file of the current batch:
copy it verbatim to `bronze/raw_<name>`, append to the master (not modelled
here), then `unlink` the incoming file. No-op when the inbox is empty. -/
def ingest_bronze (fs : SimFs) : SimFs :=
  match fs.incoming with
  | some f => { fs with raw := some f, incoming := none }
  | none => fs

/-- The fallback of the simulator's row counting: open
`data/incoming/<batch>` and count its lines minus the header; if that open
fails (the file is absent), fall back to `0`. -/
def fallbackCount (fs : SimFs) : Nat :=
  match fs.incoming with
  | some f => f.lines - 1
  | none => 0

/-- `rows_in_batch` as computed by `simulate_incremental_ingest.main`:
`len(pd.read_csv(raw_copy))`, and on any failure (missing or unreadable raw
copy) the fallback above. -/
def rowsInBatch (fs : SimFs) : Nat :=
  match fs.raw with
  | some f =>
    match f.rows with
    | some k => k
    | none => fallbackCount fs
  | none => fallbackCount fs

/-- One manifest row (the provenance fields — checksum, commit, time — are
external best-effort lookups and not modelled). -/
structure ManifestEntry where
  batch_name : Nat
  rows_in_batch : Nat
deriving DecidableEq, Repr

/-- One iteration of the simulator's per-batch loop, from the point of view
of the manifest: the staged batch is copied into the inbox (`shutil.copy2`),
`ingest_bronze.py` runs (and consumes the inbox copy), then the entry's row
count is computed. -/
def processBatch (b : Nat × FileData) : ManifestEntry :=
  let fs1 : SimFs := { staged := some b.2, incoming := some b.2, raw := none }
  let fs2 := ingest_bronze fs1
  { batch_name := b.1, rows_in_batch := rowsInBatch fs2 }

/-- The whole simulation loop over the staged batches in arrival order,
appending one manifest entry per batch to the manifest `m` (`manifest.csv`
is opened in append mode and never rewritten). -/
def runSimulation (batches : List (Nat × FileData)) (m : List ManifestEntry) :
    List ManifestEntry :=
  batches.foldl (fun acc b => acc ++ [processBatch b]) m

/-- The min-max scaling of `transform_silver.main` on the `feature_num`
column (`none` = NaN): `mn = min()`, `mx = max()` (NaN-skipping; `none` when
no value is present); if either is NaN or `mx == mn`, every row gets `0.0`,
else each value is scaled to `(x - mn) / (mx - mn)` and clipped to `[0, 1]`
(a NaN cell stays NaN under arithmetic and clip). -/
def minMaxScale (vals : List (Option ℚ)) : List (Option ℚ) :=
  match (vals.filterMap id).min?, (vals.filterMap id).max? with
  | some mn, some mx =>
    if mx = mn then vals.map (fun _ => some 0)
    else vals.map (fun v => v.map (fun x => min (max ((x - mn) / (mx - mn)) 0) 1))
  | _, _ => vals.map (fun _ => some 0)

theorem validate_df_length (req : List Col) (rows : List Row) (extra : List Nat) :
    (validate_df req rows extra).length = rows.length := by
  simp [validate_df, List.enum]

theorem validate_df_getD (req : List Col) (rows : List Row) (extra : List Nat)
    (k : Nat) (hk : k < rows.length) (b : Bool) :
    (validate_df req rows extra).getD k b
      = maskEntry req rows extra k (rows.get ⟨k, hk⟩) := by
  simp [validate_df, List.getD, List.enum, List.getElem?_eq_getElem hk]

theorem getD_eq_get {α : Type} [Inhabited α] {l : List α} {k : Nat}
    (hk : k < l.length) (b : α) : l.getD k b = l.get ⟨k, hk⟩ := by
  simp [List.getD, List.getElem?_eq_getElem hk]

theorem length_filter_bool_split {γ : Type} (l : List γ) (p : γ → Bool) :
    (l.filter p).length + (l.filter (fun a => !(p a))).length = l.length := by
  induction l with
  | nil => rfl
  | cons a l ih => by_cases h : p a <;> simp [List.filter_cons, h] <;> omega

theorem mem_zip_filter_map (rows : List Row) (mask : List Bool)
    (hlen : mask.length = rows.length) (q : Bool → Bool)
    (k : Nat) (hk : k < rows.length) :
    ((k, rows.get ⟨k, hk⟩) ∈ ((rows.enum.zip mask).filter (fun p => q p.2)).map Prod.fst
      ↔ q (mask.get ⟨k, by omega⟩) = true) := by
  have hk' : k < mask.length := by omega
  have henum : rows.enum[k]? = some (k, rows.get ⟨k, hk⟩) := by
    simp [List.enum, List.getElem?_enumFrom, List.getElem?_eq_getElem hk]
  constructor
  · intro h
    rcases List.mem_map.mp h with ⟨⟨pr, b⟩, hmem, hfst⟩
    rcases List.mem_filter.mp hmem with ⟨hz, hq⟩
    rcases List.mem_iff_getElem.mp hz with ⟨j, hj, hget⟩
    have hz' : (rows.enum.zip mask)[j]? = some (pr, b) := by
      rw [List.getElem?_eq_getElem hj, hget]
    rcases List.getElem?_zip_eq_some.mp hz' with ⟨he, hm⟩
    have hjlen : j < rows.length := by
      have := List.getElem?_eq_some.mp he
      rcases this with ⟨hh, _⟩
      simpa [List.enum] using hh
    have hpr : pr = (j, rows.get ⟨j, hjlen⟩) := by
      have he2 : rows.enum[j]? = some (j, rows.get ⟨j, hjlen⟩) := by
        simp [List.enum, List.getElem?_enumFrom, List.getElem?_eq_getElem hjlen]
      rw [he2] at he
      exact (Option.some_inj.mp he).symm
    have hfst' : pr = (k, rows.get ⟨k, hk⟩) := hfst
    have hjk : j = k := by
      rw [hpr] at hfst'
      exact congrArg Prod.fst hfst'
    rw [hjk] at hm
    rw [List.getElem?_eq_getElem hk'] at hm
    have hb : mask.get ⟨k, hk'⟩ = b := Option.some_inj.mp hm
    rw [hb]
    exact hq
  · intro hq
    have hz : ((k, rows.get ⟨k, hk⟩), mask.get ⟨k, hk'⟩) ∈ rows.enum.zip mask := by
      have hzk : (rows.enum.zip mask)[k]?
          = some ((k, rows.get ⟨k, hk⟩), mask.get ⟨k, hk'⟩) := by
        apply List.getElem?_zip_eq_some.mpr
        refine ⟨henum, ?_⟩
        rw [List.getElem?_eq_getElem hk']
        rfl
      exact List.getElem?_mem hzk
    refine List.mem_map.mpr ⟨((k, rows.get ⟨k, hk⟩), mask.get ⟨k, hk'⟩), ?_, rfl⟩
    exact List.mem_filter.mpr ⟨hz, hq⟩

/-- C1: the continuity check computes the expected cadence as the minimum
positive gap between consecutive sorted timestamps and rejects exactly the
rows whose gap from their predecessor (in sorted order) strictly exceeds
three times that cadence; on timestamps `[T, T+1min, T+70min]` exactly the
third row is rejected, and the full validator accepts the first two rows. -/
theorem C1_gap_detection :
    (∀ (rows : List Row) (m : Int), minPosGap rows = some m →
      ∀ i : Nat, i ∈ gapIndices rows ↔ ∃ d : Int, (i, d) ∈ diffsOf rows ∧ 3 * m < d)
    ∧ gapIndices c1Rows = [2]
    ∧ validate_df default_required c1Rows [] = [true, true, false] := by
  refine ⟨?_, by decide, by decide⟩
  intro rows m hm i
  have hpos : posDiffs rows ≠ [] := by
    intro h
    rw [minPosGap, h] at hm
    cases hm
  have hne : (diffsOf rows).isEmpty = false := by
    cases hd : diffsOf rows with
    | nil => exact absurd (by simp [posDiffs, hd]) hpos
    | cons a l => simp [hd]
  rw [gapIndices, hne]
  have hexp : twiceExpectedCadence rows = 2 * m := by
    simp [twiceExpectedCadence, hm]
  simp only [Bool.false_eq_true, if_false, List.mem_map, List.mem_filter, hexp,
    decide_eq_true_eq]
  constructor
  · rintro ⟨⟨j, d⟩, ⟨hmem, hq⟩, rfl⟩
    exact ⟨d, hmem, by omega⟩
  · rintro ⟨d, hmem, hlt⟩
    exact ⟨(i, d), ⟨hmem, by omega⟩, rfl⟩

theorem C1_witness :
    2 ∈ gapIndices c1Rows ↔ ∃ d : Int, (2, d) ∈ diffsOf c1Rows ∧ 3 * 1 < d :=
  C1_gap_detection.1 c1Rows 1 (by decide) 2

/-- C2: if two or more rows share the same `id` value, or the same raw
`timestamp` value, then every row bearing that duplicated value is rejected
by the validator (`duplicated(keep=False)` marks all copies). -/
theorem C2_duplicates_all_rejected (req : List Col) (rows : List Row)
    (extra : List Nat) (k : Nat) (hk : k < rows.length)
    (hdup : 2 ≤ (rows.map Row.id).count (rows.get ⟨k, hk⟩).id
      ∨ 2 ≤ (rows.map (fun s => s.timestamp.map TsCell.raw)).count
          ((rows.get ⟨k, hk⟩).timestamp.map TsCell.raw)) :
    (validate_df req rows extra).getD k true = false := by
  rw [validate_df_getD req rows extra k hk]
  rcases hdup with h | h <;> simp only [List.get_eq_getElem] at h <;>
    simp [maskEntry, coreMaskEntry, h]

theorem C2_witness :
    (validate_df default_required c2Rows []).getD 0 true = false :=
  C2_duplicates_all_rejected default_required c2Rows [] 0 (by decide)
    (Or.inl (by decide))

/-- C3: validation partitions the bronze snapshot: the accepted and rejected
outputs' row counts sum to the input's, and each indexed row lands in the
accepted set exactly when its mask entry is `true` and in the rejected set
exactly when it is `false` — hence in exactly one of the two. -/
theorem C3_partition (req : List Col) (rows : List Row) (extra : List Nat) :
    ((partitionByMask rows (validate_df req rows extra)).1.length
      + (partitionByMask rows (validate_df req rows extra)).2.length
      = rows.length)
    ∧ ∀ k (hk : k < rows.length),
        ((k, rows.get ⟨k, hk⟩) ∈ (partitionByMask rows (validate_df req rows extra)).1
          ↔ (validate_df req rows extra).getD k false = true)
        ∧ ((k, rows.get ⟨k, hk⟩) ∈ (partitionByMask rows (validate_df req rows extra)).2
          ↔ (validate_df req rows extra).getD k true = false) := by
  have hlen : (validate_df req rows extra).length = rows.length :=
    validate_df_length req rows extra
  constructor
  · have hz : (rows.enum.zip (validate_df req rows extra)).length = rows.length := by
      simp [List.length_zip, hlen, List.enum]
    have hsplit := length_filter_bool_split
      (rows.enum.zip (validate_df req rows extra)) (fun p => p.2)
    rw [hz] at hsplit
    simpa [partitionByMask] using hsplit
  · intro k hk
    have hk' : k < (validate_df req rows extra).length := by omega
    constructor
    · rw [getD_eq_get hk' false]
      exact mem_zip_filter_map rows (validate_df req rows extra) hlen
        (fun b => b) k hk
    · rw [getD_eq_get hk' true]
      have h2 := mem_zip_filter_map rows (validate_df req rows extra) hlen
        (fun b => !b) k hk
      have h3 : ((!(validate_df req rows extra).get ⟨k, hk'⟩) = true)
          ↔ ((validate_df req rows extra).get ⟨k, hk'⟩ = false) := by
        cases hb : (validate_df req rows extra).get ⟨k, hk'⟩ <;> simp
      exact h2.trans h3

theorem C3_witness :
    ((0, mkRow 1 0 0) ∈ (partitionByMask c1Rows (validate_df default_required c1Rows [])).1
      ↔ (validate_df default_required c1Rows []).getD 0 false = true)
    ∧ ((0, mkRow 1 0 0) ∈ (partitionByMask c1Rows (validate_df default_required c1Rows [])).2
      ↔ (validate_df default_required c1Rows []).getD 0 true = false) :=
  (C3_partition default_required c1Rows []).2 0 (by decide)

/-- C4: the validation mask is a pure function of its inputs — the embedding
of `validate_df` takes only the table, the required columns and the optional
layer's verdicts, so two runs on the same input produce the identical mask
and identical partitions. -/
theorem C4_validation_idempotent (req : List Col) (rows : List Row)
    (extra : List Nat) :
    validate_df req rows extra = validate_df req rows extra
    ∧ partitionByMask rows (validate_df req rows extra)
      = partitionByMask rows (validate_df req rows extra) :=
  ⟨rfl, rfl⟩

/-- C5: the optional external schema-validation layer only adds rejections:
a row accepted with the layer present is accepted with it absent, a row
rejected by the core rules stays rejected whatever the layer reports, and
with the layer absent the mask is exactly the core mask. -/
theorem C5_layer_monotone (req : List Col) (rows : List Row) (extra : List Nat)
    (k : Nat) (hk : k < rows.length) :
    ((validate_df req rows extra).getD k false = true
      → (validate_df req rows []).getD k false = true)
    ∧ ((validate_df req rows []).getD k true = false
      → (validate_df req rows extra).getD k true = false)
    ∧ validate_df req rows []
      = rows.enum.map (fun p => coreMaskEntry req rows p.1 p.2) := by
  refine ⟨?_, ?_, ?_⟩
  · rw [validate_df_getD req rows extra k hk, validate_df_getD req rows [] k hk]
    intro h
    have hcore : coreMaskEntry req rows k (rows.get ⟨k, hk⟩) = true :=
      (Bool.and_eq_true_iff.mp h).1
    show (coreMaskEntry req rows k (rows.get ⟨k, hk⟩)
      && !(List.contains [] k)) = true
    rw [hcore]
    rfl
  · rw [validate_df_getD req rows extra k hk, validate_df_getD req rows [] k hk]
    intro h
    have h' : (coreMaskEntry req rows k (rows.get ⟨k, hk⟩) && true) = false := h
    have hcore : coreMaskEntry req rows k (rows.get ⟨k, hk⟩) = false := by
      simpa using h'
    show (coreMaskEntry req rows k (rows.get ⟨k, hk⟩)
      && !(List.contains extra k)) = false
    rw [hcore]
    rfl
  · simp [validate_df, maskEntry]

theorem C5_witness :
    ((validate_df default_required c1Rows [1]).getD 0 false = true
      → (validate_df default_required c1Rows []).getD 0 false = true)
    ∧ ((validate_df default_required c1Rows []).getD 0 true = false
      → (validate_df default_required c1Rows [1]).getD 0 true = false)
    ∧ validate_df default_required c1Rows []
      = c1Rows.enum.map (fun p => coreMaskEntry default_required c1Rows p.1 p.2) :=
  C5_layer_monotone default_required c1Rows [1] 0 (by decide)

theorem sum_map_add (f g : Nat → Nat) (l : List Nat) :
    (l.map (fun i => f i + g i)).sum = (l.map f).sum + (l.map g).sum := by
  induction l with
  | nil => rfl
  | cons a l ih => simp [ih]; omega

theorem sum_map_const (l : List Nat) (c : Nat) :
    (l.map (fun _ => c)).sum = l.length * c := by
  induction l with
  | nil => simp
  | cons a l ih => simp [ih, Nat.succ_mul]; omega

theorem sum_indicator_range (n rem : Nat) :
    ((List.range n).map (fun i => if i < rem then 1 else 0)).sum = min rem n := by
  induction n with
  | zero => simp
  | succ n ih =>
    rw [List.range_succ, List.map_append, List.sum_append, ih]
    by_cases h : n < rem <;> simp [h] <;> omega

theorem chunkSizes_length (total n : Nat) : (chunkSizes total n).length = n := by
  simp [chunkSizes]

theorem chunkSizes_sum (total n : Nat) (hn : 0 < n) :
    (chunkSizes total n).sum = total := by
  rw [chunkSizes,
    sum_map_add (fun _ => total / n) (fun i => if i < total % n then 1 else 0),
    sum_map_const, List.length_range, sum_indicator_range,
    Nat.min_eq_left (Nat.le_of_lt (Nat.mod_lt total hn))]
  exact Nat.div_add_mod total n

theorem chunkSizes_bounds (t n s : Nat) (hs : s ∈ chunkSizes t n) :
    t / n ≤ s ∧ s ≤ t / n + 1 := by
  rcases List.mem_map.mp hs with ⟨i, _, rfl⟩
  by_cases h : i < t % n <;> simp [h]

theorem takeChunks_length (d : List α) (ss : List Nat) :
    (takeChunks d ss).length = ss.length := by
  induction ss generalizing d with
  | nil => rfl
  | cons s ss ih => simp [takeChunks, ih]

theorem takeChunks_sizes (d : List α) (ss : List Nat) (h : ss.sum ≤ d.length) :
    (takeChunks d ss).map List.length = ss := by
  induction ss generalizing d with
  | nil => rfl
  | cons s ss ih =>
    simp only [List.sum_cons] at h
    simp only [takeChunks, List.map_cons]
    congr 1
    · rw [List.length_take]
      omega
    · apply ih
      rw [List.length_drop]
      omega

/-- C6: splitting a table into `n > 0` batches yields exactly `n` batches
whose sizes are `total / n`, the first `total % n` of them one larger, so
the sizes sum to the source row count and any two differ by at most one;
an empty source still yields `n` empty batches. -/
theorem C6_batch_sizes {α : Type} (df : List α) (r : α → α → Prop)
    [DecidableRel r] (n : Nat) (hn : 0 < n) :
    (split_into_batches df r n).length = n
    ∧ (split_into_batches df r n).map List.length = chunkSizes df.length n
    ∧ (chunkSizes df.length n).sum = df.length
    ∧ (∀ s₁ ∈ chunkSizes df.length n, ∀ s₂ ∈ chunkSizes df.length n, s₁ ≤ s₂ + 1)
    ∧ (df.length = 0 → split_into_batches df r n = List.replicate n []) := by
  have hbnd : ∀ s₁ ∈ chunkSizes df.length n, ∀ s₂ ∈ chunkSizes df.length n,
      s₁ ≤ s₂ + 1 := by
    intro s₁ h₁ s₂ h₂
    have b₁ := chunkSizes_bounds df.length n s₁ h₁
    have b₂ := chunkSizes_bounds df.length n s₂ h₂
    omega
  by_cases h0 : df.length = 0
  · refine ⟨?_, ?_, ?_, hbnd, fun _ => ?_⟩
    · simp [split_into_batches, h0]
    · rw [h0]
      simp [split_into_batches, h0, chunkSizes]
    · rw [chunkSizes_sum df.length n hn, h0]
    · simp [split_into_batches, h0, List.map_const]
  · have hsort : (df.insertionSort r).length = df.length :=
      List.length_insertionSort r df
    have hsum : (chunkSizes (df.insertionSort r).length n).sum
        ≤ (df.insertionSort r).length := by
      rw [chunkSizes_sum _ n hn]
    refine ⟨?_, ?_, chunkSizes_sum df.length n hn, hbnd, fun h => absurd h h0⟩
    · rw [split_into_batches, if_neg h0, takeChunks_length, chunkSizes_length]
    · rw [split_into_batches, if_neg h0, takeChunks_sizes _ _ hsum, hsort]

theorem C6_witness :
    (split_into_batches (List.range 7) (fun a b : Nat => a ≤ b) 5).length = 5
    ∧ (split_into_batches (List.range 7) (fun a b : Nat => a ≤ b) 5).map List.length
        = chunkSizes (List.range 7).length 5
    ∧ (chunkSizes (List.range 7).length 5).sum = (List.range 7).length
    ∧ (∀ s₁ ∈ chunkSizes (List.range 7).length 5,
        ∀ s₂ ∈ chunkSizes (List.range 7).length 5, s₁ ≤ s₂ + 1)
    ∧ ((List.range 7).length = 0
        → split_into_batches (List.range 7) (fun a b : Nat => a ≤ b) 5
            = List.replicate 5 []) :=
  C6_batch_sizes (List.range 7) (fun a b => a ≤ b) 5 (by decide)

theorem filterMap_getElem_length {α : Type} (gold : List α) (js : List Nat)
    (hbd : ∀ i ∈ js, i < gold.length) :
    (js.filterMap (fun i => gold[i]?)).length = js.length := by
  induction js with
  | nil => rfl
  | cons i is ih =>
    have hi : i < gold.length := hbd i (by simp)
    have ih' := ih (fun j hj => hbd j (by simp [hj]))
    simp [List.filterMap_cons, List.getElem?_eq_getElem hi, ih']

theorem filterMap_getElem_range {α : Type} (l : List α) :
    (List.range l.length).filterMap (fun i => l[i]?) = l := by
  induction l with
  | nil => rfl
  | cons a t ih =>
    rw [List.length_cons, List.range_succ_eq_map, List.filterMap_cons]
    simp only [List.getElem?_cons_zero, List.filterMap_map]
    simp only [Function.comp_def, List.getElem?_cons_succ]
    rw [ih]

theorem range_split_perm (n : Nat) (idxs : List Nat) (hnd : idxs.Nodup)
    (hbd : ∀ i ∈ idxs, i < n) :
    ((List.range n).filter (fun i => !(idxs.contains i)) ++ idxs).Perm
      (List.range n) := by
  have h1 : ((List.range n).filter (fun i => !(idxs.contains i))).Nodup :=
    (List.nodup_range n).filter _
  have hnd2 : (((List.range n).filter (fun i => !(idxs.contains i))) ++ idxs).Nodup := by
    refine List.Nodup.append h1 hnd ?_
    intro a ha hb
    have hf := List.of_mem_filter ha
    simp only [Bool.not_eq_true'] at hf
    have hf' : a ∉ idxs := by simpa using hf
    exact hf' hb
  apply List.Subperm.antisymm
  · apply hnd2.subperm
    intro a ha
    rcases List.mem_append.mp ha with h | h
    · exact List.mem_of_mem_filter h
    · exact List.mem_range.mpr (hbd a h)
  · apply (List.nodup_range n).subperm
    intro a ha
    by_cases hc : a ∈ idxs
    · exact List.mem_append.mpr (Or.inr hc)
    · refine List.mem_append.mpr (Or.inl ?_)
      refine List.mem_filter.mpr ⟨ha, ?_⟩
      simp [hc]

/-- C7: the gold builder's split takes the seeded sample (the distinct row
positions `idxs`, of size `round(len(gold) * test_fraction)`) as `test` and
the complement by row identity as `train`; then `len(test)` equals the
rounded sample size, `len(train) + len(test) = len(gold)`, and `train`
together with `test` is a permutation of `gold` (union is gold, no row used
twice). Determinism holds by construction: the embedding's split is a
function of the gold contents and the sampled positions alone. -/
theorem C7_train_test_split {α : Type} (gold : List α) (idxs : List Nat)
    (frac : ℚ) (hnd : idxs.Nodup) (hbd : ∀ i ∈ idxs, i < gold.length)
    (hsz : idxs.length = sampleSize gold.length frac) :
    (sampleAt gold idxs).length = sampleSize gold.length frac
    ∧ (dropAt gold idxs).length + (sampleAt gold idxs).length = gold.length
    ∧ (dropAt gold idxs ++ sampleAt gold idxs).Perm gold := by
  have hperm := range_split_perm gold.length idxs hnd hbd
  have htrans := hperm.filterMap (fun i => gold[i]?)
  rw [List.filterMap_append, filterMap_getElem_range] at htrans
  refine ⟨?_, ?_, htrans⟩
  · rw [sampleAt, filterMap_getElem_length gold idxs hbd, hsz]
  · have hlen := htrans.length_eq
    rw [List.length_append] at hlen
    exact hlen

theorem C7_witness :
    (sampleAt [10, 20, 30, 40, 50] [2]).length = sampleSize 5 (1/5)
    ∧ (dropAt [10, 20, 30, 40, 50] [2]).length
        + (sampleAt [10, 20, 30, 40, 50] [2]).length = 5
    ∧ (dropAt [10, 20, 30, 40, 50] [2] ++ sampleAt [10, 20, 30, 40, 50] [2]).Perm
        [10, 20, 30, 40, 50] :=
  C7_train_test_split [10, 20, 30, 40, 50] [2] (1/5) (by simp)
    (by decide)
    (by norm_num [sampleSize, pyRound])

theorem runSimulation_append (batches : List (Nat × FileData))
    (m : List ManifestEntry) :
    runSimulation batches m = m ++ batches.map processBatch := by
  induction batches generalizing m with
  | nil => simp [runSimulation]
  | cons b bs ih =>
    simp only [runSimulation, List.foldl_cons, List.map_cons] at ih ⊢
    rw [ih (m ++ [processBatch b])]
    simp

/-- C8: after processing `N` staged batches from an empty manifest, the
manifest is exactly the list of their entries in arrival order (`N` entries,
one per batch); and from any starting manifest the run only appends — the
prior entries survive unchanged as the front of the result. -/
theorem C8_manifest_complete :
    (∀ batches : List (Nat × FileData),
      runSimulation batches [] = batches.map processBatch)
    ∧ (∀ batches : List (Nat × FileData),
      (runSimulation batches []).length = batches.length)
    ∧ (∀ (batches : List (Nat × FileData)) (m : List ManifestEntry),
      ∃ t, runSimulation batches m = m ++ t) := by
  refine ⟨fun batches => by simpa using runSimulation_append batches [],
    fun batches => ?_,
    fun batches m => ⟨batches.map processBatch, runSimulation_append batches m⟩⟩
  rw [runSimulation_append batches []]
  simp

/-- C9: the manifest entry does record the raw copy's row count whenever
`pd.read_csv` can read it; but when the raw copy is unreadable the fallback
opens `data/incoming/<batch>` — a file `ingest_bronze.py` has already
unlinked — so the recorded count is always `0`, never the staged file's
line count. Failing input: a staged batch of 3 lines (2 data rows) whose
CSV parse fails; the code records `0`, the claimed fallback would give `2`. -/
theorem C9_fallback_reads_deleted_file :
    (∀ i k l : Nat, (processBatch (i, ⟨some k, l⟩)).rows_in_batch = k)
    ∧ (∀ i l : Nat, (processBatch (i, ⟨none, l⟩)).rows_in_batch = 0)
    ∧ (processBatch (1, ⟨none, 3⟩)).rows_in_batch = 0
    ∧ (FileData.mk none 3).lines - 1 = 2 :=
  ⟨fun _ _ _ => rfl, fun _ _ => rfl, rfl, rfl⟩

/-- C10: if `feature_num` over the validated rows is empty, all-missing, or
constant (max = min), every row's `feature_num_scaled` is `0.0` — the
normalization never divides by zero; otherwise each present value is scaled
to `(x - min) / (max - min)` and clipped to `[0, 1]`. -/
theorem C10_minmax_scaling (vals : List (Option ℚ)) :
    ((vals.filterMap id = []
        ∨ ∃ m, (vals.filterMap id).min? = some m ∧ (vals.filterMap id).max? = some m)
      → minMaxScale vals = vals.map (fun _ => some 0))
    ∧ (∀ mn mx, (vals.filterMap id).min? = some mn
        → (vals.filterMap id).max? = some mx → mn ≠ mx
        → minMaxScale vals
            = vals.map (fun v => v.map (fun x => min (max ((x - mn) / (mx - mn)) 0) 1))) := by
  constructor
  · rintro (h | ⟨m, hmin, hmax⟩)
    · simp [minMaxScale, h]
    · simp [minMaxScale, hmin, hmax]
  · intro mn mx hmin hmax hne
    have hne' : ¬(mx = mn) := fun hh => hne hh.symm
    simp [minMaxScale, hmin, hmax, hne']

theorem C10_witness :
    minMaxScale [some 0, some 1, none]
      = [some 0, some 1, none].map
          (fun v => v.map (fun x => min (max ((x - 0) / (1 - 0)) 0) 1)) :=
  (C10_minmax_scaling [some 0, some 1, none]).2 0 1 (by decide) (by decide)
    (by decide)

end DataOps
